import Mathlib

/-!
Verification development for the JavaScript leak finder.

This file shallowly embeds the two core modules as pure Lean functions
and proves the frozen claims about them:

* `leak_finder.py` — the heap-snapshot parser (`Snapshotter`) and the
  retention analyzer (`LeakFinder`);
* `suppressions.py` — the suppression matcher (`Suppression`).

Modelling conventions:

* Python lists of snapshot integers become `List Nat` (all snapshot
  entries are type indices, string-table indices, array offsets or node
  ids, which are non-negative).
* Python dictionaries keyed by node id become association lists
  `List (Nat × Node)`; `insertNode` replaces the binding of an existing
  key in place, as a Python dict assignment does.
* Mutation of `Node`/`Edge` objects becomes functional update; object
  identity of a `Node` is represented by its id (node dicts produced by
  the parser bind each id to exactly one node object).  The resolved
  endpoint references `from_node`/`to_node` (plain attributes in Python,
  set once during the second parsing pass) are `Option Nat` holding the
  id of the referenced node, `none` while still unset (Python `{}`).
* Python exceptions (`Error`, `KeyError`, `IndexError`) become
  `Except String`.
* Recursion that Python bounds dynamically (the depth-bounded path
  search, the chain matcher, the regex matcher) is given a structural
  fuel argument whose top-level value, supplied by the wrapper, is large
  enough that fuel exhaustion is unreachable: in each case every
  recursive call shrinks the quantity the fuel starts from, so the
  base-case branch of the fuel is dead code for the wrapper's calls.
-/

/-! ### Small helpers: Python `str.split`/`str.join` on a one-character
separator, `xrange` with a step, and checked list indexing. -/

/-- Python `s.split(c)` for one character `c`, on character lists.
The result is always non-empty (Python's `''.split('.') == ['']`). -/
def splitChar (c : Char) : List Char → List (List Char)
  | [] => [[]]
  | a :: rest =>
    match splitChar c rest with
    | [] => [[a]]
    | h :: t => if a = c then [] :: h :: t else (a :: h) :: t

/-- Python `c.join(parts)` for one character `c`, on character lists. -/
def joinChar (c : Char) : List (List Char) → List Char
  | [] => []
  | [l] => l
  | l :: ls => l ++ c :: joinChar c ls

/-- Python `s.split('.')`, as used on container/bad-retainer descriptors. -/
def splitDot (s : String) : List String :=
  (splitChar '.' s.data).map (fun l => String.mk l)

/-- Python `'.'.join(parts)`, as used to render a descriptor chain. -/
def joinDot (xs : List String) : String :=
  String.mk (joinChar '.' (xs.map String.data))

/-- Python `xrange(start, stop, step)` for a positive `step` (the parser
always steps by a field count, which is positive whenever the mandatory
fields were found; `step = 0` would raise in Python and is unreachable). -/
def rangeStep (start stop step : Nat) : List Nat :=
  List.range' start ((stop - start + step - 1) / step) step

/-- Python list indexing `l[i]` for a non-negative index: `IndexError`
becomes `Except.error`. -/
def getE {α : Type} (l : List α) (i : Nat) : Except String α :=
  match l.get? i with
  | some a => Except.ok a
  | none => Except.error "list index out of range"

/-! ### Graph model: `Node`, `Edge`, and the id-keyed node dictionary. -/

/-- `Edge` from `leak_finder.py`: a directed relationship between heap
objects.  `from_node`/`to_node` are the late-bound endpoint references
(`none` until the second parsing pass sets them). -/
structure Edge where
  from_node_id : Nat
  to_node_id : Nat
  from_node : Option Nat
  to_node : Option Nat
  type_string : String
  name_string : String
deriving DecidableEq

/-- `Node` from `leak_finder.py`.  `edges_to` are edges whose end point
this node is (incoming), `edges_from` edges whose start point it is
(outgoing).  `string` is populated for string-kind nodes only. -/
structure Node where
  node_id : Nat
  type_string : String
  class_name : String
  edges_to : List Edge
  edges_from : List Edge
  string : String
deriving DecidableEq

/-- The snapshot's `_node_dict`: an id-keyed association list. -/
abbrev NodeDict := List (Nat × Node)

/-- Python `node_dict.get(key)`. -/
def lookupNode : NodeDict → Nat → Option Node
  | [], _ => none
  | (k, n) :: rest, key => if k = key then some n else lookupNode rest key

/-- Python `node_dict[key] = n`: replaces an existing binding, else
appends a new one. -/
def insertNode : NodeDict → Nat → Node → NodeDict
  | [], key, n => [(key, n)]
  | (k, m) :: rest, key, n =>
    if k = key then (key, n) :: rest else (k, m) :: insertNode rest key n

/-- Python `node_dict[key]`: raises `KeyError` when absent. -/
def dictGet (d : NodeDict) (key : Nat) : Except String Node :=
  match lookupNode d key with
  | some n => Except.ok n
  | none => Except.error "KeyError"

/-- Dereference a node id in the graph.  In every graph the parser
produces, all ids reachable by the analyzer are bound, so the default is
never consulted there; it only makes the analyzer total. -/
def nodeAt (d : NodeDict) (key : Nat) : Node :=
  (lookupNode d key).getD ⟨0, "", "", [], [], ""⟩

/-- Dereference of `edge.from_node` (the Python attribute holds the
node object itself; here its id).  Always `some` on parsed graphs. -/
def Edge.fromRef (e : Edge) : Nat := e.from_node.getD 0

/-- Dereference of `edge.to_node`.  Always `some` on parsed graphs. -/
def Edge.toRef (e : Edge) : Nat := e.to_node.getD 0

/-! ### Snapshot parser (`Snapshotter`). -/

/-- The decoded snapshot payload: the flat arrays, the string table and
the schema metadata (`node_types`/`edge_types` stand for the vocabularies
`snapshot.meta.node_types[0]` / `snapshot.meta.edge_types[0]`). -/
structure Heap where
  nodes : List Nat
  edges : List Nat
  strings : List String
  node_types : List String
  edge_types : List String
  node_fields : List String
  edge_fields : List String

/-- `Snapshotter`'s per-run state after `_ReadSnapshot`: the raw arrays
plus the resolved field offsets.  Exactly one of `node_edges_start_ix` /
`node_edge_count_ix` is meaningful, selected by
`node_edge_count_format`; the other is left `0` (Python leaves the other
attribute unset). -/
structure Snapshotter where
  node_list : List Nat
  edge_list : List Nat
  strings : List String
  node_types : List String
  edge_types : List String
  node_type_ix : Nat
  node_name_ix : Nat
  node_id_ix : Nat
  node_edge_count_format : Bool
  node_edges_start_ix : Nat
  node_edge_count_ix : Nat
  node_field_count : Nat
  edge_type_ix : Nat
  edge_name_or_ix_ix : Nat
  edge_to_node_ix : Nat
  edge_field_count : Nat

/-- `Snapshotter._FindField`. -/
def FindField (field_name : String) (fields_array : List String) : Except String Nat :=
  if field_name ∈ fields_array then Except.ok (fields_array.findIdx (· == field_name))
  else Except.error ("Cannot find field " ++ field_name ++ " from the snapshot")

/-- `Snapshotter._ReadSnapshot`, given the already-decoded payload:
resolves the field offsets and selects the node-record layout by the
presence of `edges_index` (else requiring `edge_count`). -/
def ReadSnapshot (h : Heap) : Except String Snapshotter := do
  let node_type_ix ← FindField "type" h.node_fields
  let node_name_ix ← FindField "name" h.node_fields
  let node_id_ix ← FindField "id" h.node_fields
  let fmtInfo ←
    if "edges_index" ∈ h.node_fields then
      pure (false, h.node_fields.findIdx (· == "edges_index"), 0)
    else do
      let ec ← FindField "edge_count" h.node_fields
      pure (true, 0, ec)
  let edge_type_ix ← FindField "type" h.edge_fields
  let edge_name_or_ix_ix ← FindField "name_or_index" h.edge_fields
  let edge_to_node_ix ← FindField "to_node" h.edge_fields
  Except.ok
    { node_list := h.nodes
      edge_list := h.edges
      strings := h.strings
      node_types := h.node_types
      edge_types := h.edge_types
      node_type_ix, node_name_ix, node_id_ix
      node_edge_count_format := fmtInfo.1
      node_edges_start_ix := fmtInfo.2.1
      node_edge_count_ix := fmtInfo.2.2
      node_field_count := h.node_fields.length
      edge_type_ix, edge_name_or_ix_ix, edge_to_node_ix
      edge_field_count := h.edge_fields.length }

/-- `Snapshotter._ConstructorName`. -/
def ConstructorName (s : Snapshotter) (type_string : String) (node_name_ix : Nat) :
    Except String String :=
  if type_string = "object" then getE s.strings node_name_ix
  else Except.ok ("(" ++ type_string ++ ")")

/-- `Snapshotter._IsNodeTypeUninteresting`. -/
def IsNodeTypeUninteresting (t : String) : Bool :=
  t == "hidden" || t == "code" || t == "number" || t == "native" || t == "synthetic"

/-- `Snapshotter._IsEdgeTypeUninteresting`. -/
def IsEdgeTypeUninteresting (t : String) : Bool :=
  t == "weak" || t == "hidden" || t == "internal"

/-- `Snapshotter._ReadEdgeFromIndex`: reads one edge record; `none`
for a filtered (uninteresting) edge or target. -/
def ReadEdgeFromIndex (s : Snapshotter) (node_id : Nat) (edge_ix : Nat) :
    Except String (Option Edge) :=
  if s.edge_list.length < edge_ix + s.edge_field_count then
    Except.error "Snapshot edge list too short"
  else
    match getE s.edge_list (edge_ix + s.edge_type_ix) with
    | Except.error m => Except.error m
    | Except.ok tyIx =>
      match getE s.edge_types tyIx with
      | Except.error m => Except.error m
      | Except.ok tyStr =>
        if IsEdgeTypeUninteresting tyStr then Except.ok none
        else
          match getE s.edge_list (edge_ix + s.edge_name_or_ix_ix) with
          | Except.error m => Except.error m
          | Except.ok child_name_or_ix =>
            match getE s.edge_list (edge_ix + s.edge_to_node_ix) with
            | Except.error m => Except.error m
            | Except.ok child_node_ix =>
              match getE s.node_list (child_node_ix + s.node_type_ix) with
              | Except.error m => Except.error m
              | Except.ok ctyIx =>
                match getE s.node_types ctyIx with
                | Except.error m => Except.error m
                | Except.ok ctyStr =>
                  match getE s.node_list (child_node_ix + s.node_id_ix) with
                  | Except.error m => Except.error m
                  | Except.ok child_node_id =>
                    if IsNodeTypeUninteresting ctyStr then Except.ok none
                    else
                      match
                        (if tyStr = "element" ∨ s.strings.length ≤ child_name_or_ix then
                          Except.ok (toString child_name_or_ix)
                        else getE s.strings child_name_or_ix) with
                      | Except.error m => Except.error m
                      | Except.ok child_name_string =>
                        Except.ok (some
                          ⟨node_id, child_node_id, none, none, tyStr, child_name_string⟩)

/-- The edge-reading loop of `_ReadNodeFromIndex`, over the edge-record
offsets of one node's slice; kept edges in slice order. -/
def ReadEdgesAt (s : Snapshotter) (node_id : Nat) : List Nat → Except String (List Edge)
  | [] => Except.ok []
  | ix :: rest =>
    match ReadEdgeFromIndex s node_id ix with
    | Except.error m => Except.error m
    | Except.ok oe =>
      match ReadEdgesAt s node_id rest with
      | Except.error m => Except.error m
      | Except.ok es =>
        match oe with
        | some e => Except.ok (e :: es)
        | none => Except.ok es

/-- `Snapshotter._ReadNodeFromIndex`: reads one node record, computes
its edge-slice bounds under the active layout, and (for interesting
node kinds) inserts the constructed `Node` — kept edges in its
`edges_from` (outgoing) list, `edges_to` still empty — returning the
slice end for the next node. -/
def ReadNodeFromIndex (s : Snapshotter) (d : NodeDict) (ix : Nat) (edges_start : Nat) :
    Except String (NodeDict × Nat) :=
  if s.node_list.length < ix + s.node_field_count then
    Except.error "Snapshot node list too short"
  else
    match getE s.node_list (ix + s.node_type_ix) with
    | Except.error m => Except.error m
    | Except.ok tyIx =>
      match getE s.node_types tyIx with
      | Except.error m => Except.error m
      | Except.ok tyStr =>
        match
          (if s.node_edge_count_format then
            match getE s.node_list (ix + s.node_edge_count_ix) with
            | Except.error m => Except.error m
            | Except.ok cnt => Except.ok (edges_start, edges_start + cnt * s.edge_field_count)
          else
            match getE s.node_list (ix + s.node_edges_start_ix) with
            | Except.error m => Except.error m
            | Except.ok es =>
              if ix + s.node_edges_start_ix + s.node_field_count < s.node_list.length then
                match getE s.node_list (ix + s.node_edges_start_ix + s.node_field_count) with
                | Except.error m => Except.error m
                | Except.ok ee => Except.ok (es, ee)
              else Except.ok (es, s.edge_list.length)) with
        | Except.error m => Except.error m
        | Except.ok bounds =>
          if IsNodeTypeUninteresting tyStr then Except.ok (d, bounds.2)
          else
            match getE s.node_list (ix + s.node_name_ix) with
            | Except.error m => Except.error m
            | Except.ok name_ix =>
              match getE s.node_list (ix + s.node_id_ix) with
              | Except.error m => Except.error m
              | Except.ok node_id =>
                match ConstructorName s tyStr name_ix with
                | Except.error m => Except.error m
                | Except.ok ctor_name =>
                  match (if tyStr = "string" then getE s.strings name_ix else Except.ok "") with
                  | Except.error m => Except.error m
                  | Except.ok nodeStr =>
                    match ReadEdgesAt s node_id
                        (rangeStep bounds.1 bounds.2 s.edge_field_count) with
                    | Except.error m => Except.error m
                    | Except.ok kept =>
                      Except.ok
                        (insertNode d node_id ⟨node_id, tyStr, ctor_name, [], kept, nodeStr⟩,
                          bounds.2)

/-- The node loop of `_ParseSnapshot`, threading the running edge
cursor (used by the edge-count layout). -/
def ReadAllNodes (s : Snapshotter) : List Nat → NodeDict → Nat → Except String (NodeDict × Nat)
  | [], d, cursor => Except.ok (d, cursor)
  | ix :: rest, d, cursor =>
    match ReadNodeFromIndex s d ix cursor with
    | Except.error m => Except.error m
    | Except.ok (d', cursor') => ReadAllNodes s rest d' cursor'

/-- The node-record offsets `xrange(0, len(node_list), node_field_count)`. -/
def NodeIndices (s : Snapshotter) : List Nat :=
  rangeStep 0 s.node_list.length s.node_field_count

/-- `edge.SetFromNode(n); edge.SetToNode(node_dict[edge.to_node_id])`
performed by the second pass on an edge whose start node has id `nid`. -/
def ResolveEdge (nid : Nat) (e : Edge) : Edge :=
  { e with from_node := some nid, to_node := some e.to_node_id }

/-- The inner loop of `_ParseSnapshot`'s second pass for one source
node `nid`: each of its outgoing edges is appended, with endpoints
populated, to `node_dict[e.to_node_id].edges_to` (Python appends the
shared edge object first and then resolves it in place; the final state
is the same). -/
def LinkEdges : NodeDict → Nat → List Edge → Except String NodeDict
  | d, _, [] => Except.ok d
  | d, nid, e :: rest =>
    match dictGet d e.to_node_id with
    | Except.error m => Except.error m
    | Except.ok t =>
      LinkEdges (insertNode d e.to_node_id { t with edges_to := t.edges_to ++ [ResolveEdge nid e] })
        nid rest

/-- One iteration of the second pass: link the outgoing edges of node
`nid` into their targets and record the in-place endpoint resolution in
the source's own `edges_from` list. -/
def SecondPassNode (d : NodeDict) (nid : Nat) : Except String NodeDict :=
  match dictGet d nid with
  | Except.error m => Except.error m
  | Except.ok n =>
    match LinkEdges d nid n.edges_from with
    | Except.error m => Except.error m
    | Except.ok d1 =>
      match dictGet d1 nid with
      | Except.error m => Except.error m
      | Except.ok n1 =>
        Except.ok (insertNode d1 nid { n1 with edges_from := n1.edges_from.map (ResolveEdge nid) })

/-- The key loop of the second pass (`for node_id in self._node_dict`). -/
def SecondPassGo : NodeDict → List Nat → Except String NodeDict
  | d, [] => Except.ok d
  | d, k :: rest =>
    match SecondPassNode d k with
    | Except.error m => Except.error m
    | Except.ok d' => SecondPassGo d' rest

/-- The second pass of `Snapshotter._ParseSnapshot`. -/
def SecondPass (d : NodeDict) : Except String NodeDict :=
  SecondPassGo d (d.map Prod.fst)

/-- `Snapshotter._ParseSnapshot`: first pass over all node records,
then the edge-linking second pass. -/
def ParseSnapshot (s : Snapshotter) : Except String NodeDict :=
  match ReadAllNodes s (NodeIndices s) [] 0 with
  | Except.error m => Except.error m
  | Except.ok (d, _) => SecondPass d

/-- `Snapshotter.GetSnapshot` on an already-decoded payload: the
resulting node dictionary (Python returns its values). -/
def GetSnapshot (h : Heap) : Except String NodeDict :=
  match ReadSnapshot h with
  | Except.error m => Except.error m
  | Except.ok s => ParseSnapshot s

/-! ### Retention analyzer (`LeakFinder`). -/

/-- The Window test of `LeakFinder.FindLeaks`'s classification pass. -/
def isWindowName (s : String) : Bool :=
  s == "Window" || "Window / ".data.isPrefixOf s.data

/-- Fueled body of `LeakFinder._IsRetainedByEdges`; the wrapper passes
`edge_names.length` as fuel and every recursive call drops the last
name, so the fuel never runs out for the wrapper's calls. -/
def IsRetainedByEdgesAux (g : NodeDict) (fuel : Nat) (node : Node) (edge_names : List String) :
    Bool :=
  if edge_names.isEmpty then true
  else
    match fuel with
    | 0 => false
    | fuel' + 1 =>
      node.edges_to.any (fun e =>
        e.name_string == edge_names.getLastD "" &&
          IsRetainedByEdgesAux g fuel' (nodeAt g e.fromRef) edge_names.dropLast)

/-- `LeakFinder._IsRetainedByEdges`: does some chain of incoming edges
named `edge_names` (matched right to left) retain `node`? -/
def IsRetainedByEdges (g : NodeDict) (node : Node) (edge_names : List String) : Bool :=
  IsRetainedByEdgesAux g edge_names.length node edge_names

/-- Fueled body of `LeakFinder._FindRetainingPaths`.  Every recursive
call grows `visited` by one and the `max_depth` guard cuts the search
off once `visited` is longer than `max_depth`, so the wrapper's fuel
`max_depth + 2 - visited.length` is never exhausted before the guard
fires (both branches return `[]` beyond the bound). -/
def FindRetainingPathsAux (g : NodeDict) (fuel : Nat) (node : Nat) (visited : List Nat)
    (stop_nodes : List Nat) (max_depth : Nat) : List (List Nat) :=
  match fuel with
  | 0 => []
  | fuel' + 1 =>
    if max_depth < visited.length then []
    else if (nodeAt g node).edges_to.isEmpty || stop_nodes.contains node then [visited]
    else
      (nodeAt g node).edges_to.flatMap (fun e =>
        if visited.contains e.fromRef then []
        else FindRetainingPathsAux g fuel' e.fromRef (visited ++ [e.fromRef]) stop_nodes max_depth)

/-- `LeakFinder._FindRetainingPaths`: all paths the generator yields,
in generation order. -/
def FindRetainingPaths (g : NodeDict) (node : Nat) (visited : List Nat)
    (stop_nodes : List Nat) (max_depth : Nat) : List (List Nat) :=
  FindRetainingPathsAux g (max_depth + 2 - visited.length) node visited stop_nodes max_depth

/-- `LeakNode` (the emitted leak candidate); `node` holds the id of the
leaked node, `stacktrace_suffix` the constructor's last argument. -/
structure LeakNode where
  node : Nat
  description : String
  how_to_find_node : String
  stacktrace_suffix : String
deriving DecidableEq

/-- The state built by the classification pass of `FindLeaks`:
`stop_nodes`, `bad_stop_nodes` and `containers` as in the source
(node-object sets become id lists, membership-equivalent), with the
`container_name` tag stored next to each container id, and the
`found_container_edges` string set. -/
structure ClassifyResult where
  stop_nodes : List Nat
  bad_stop_nodes : List Nat
  containers : List (Nat × String)
  found_container_edges : List String
deriving DecidableEq

/-- The bad-retainer inner loop of the classification pass for one
node: the first matching bad chain (if any) makes the node a stop node
and a bad stop node, mirroring the `break`. -/
def StepBadChains (g : NodeDict) (badDesc : List (List String)) (r : ClassifyResult)
    (entry : Nat × Node) : ClassifyResult :=
  match badDesc.find? (fun chain => IsRetainedByEdges g entry.2 chain) with
  | some _ =>
    { r with stop_nodes := r.stop_nodes ++ [entry.1],
             bad_stop_nodes := r.bad_stop_nodes ++ [entry.1] }
  | none => r

/-- The container inner loop of the classification pass for one node:
the first matching container chain (if any) registers the node as a
container tagged with the chain joined by dots, makes it a stop node
and a bad stop node, and records the chain as found. -/
def StepContainerChains (g : NodeDict) (contDesc : List (List String)) (r1 : ClassifyResult)
    (entry : Nat × Node) : ClassifyResult :=
  match contDesc.find? (fun chain => IsRetainedByEdges g entry.2 chain) with
  | some chain =>
    { r1 with containers := r1.containers ++ [(entry.1, joinDot chain)],
              stop_nodes := r1.stop_nodes ++ [entry.1],
              bad_stop_nodes := r1.bad_stop_nodes ++ [entry.1],
              found_container_edges := r1.found_container_edges ++ [joinDot chain] }
  | none => r1

/-- One iteration of the classification loop of `FindLeaks`: Window
nodes become stop nodes only (`continue`); otherwise the bad-retainer
loop runs, then the container loop. -/
def StepClassify (g : NodeDict) (badDesc contDesc : List (List String))
    (r : ClassifyResult) (entry : Nat × Node) : ClassifyResult :=
  if isWindowName entry.2.class_name then
    { r with stop_nodes := r.stop_nodes ++ [entry.1] }
  else
    StepContainerChains g contDesc (StepBadChains g badDesc r entry) entry

/-- The classification loop over the node dictionary. -/
def ClassifyList (g : NodeDict) (badDesc contDesc : List (List String)) :
    List (Nat × Node) → ClassifyResult → ClassifyResult
  | [], r => r
  | entry :: rest, r => ClassifyList g badDesc contDesc rest (StepClassify g badDesc contDesc r entry)

/-- The whole classification pass of `FindLeaks`. -/
def Classify (g : NodeDict) (badDesc contDesc : List (List String)) : ClassifyResult :=
  ClassifyList g badDesc contDesc g ⟨[], [], [], []⟩

/-- The `Container not found` check of `FindLeaks`, over the configured
chains in order. -/
def CheckContainers (contDesc : List (List String)) (found : List String) :
    Except String Unit :=
  match contDesc with
  | [] => Except.ok ()
  | c :: rest =>
    if joinDot c ∈ found then CheckContainers rest found
    else Except.error ("Container not found: " ++ joinDot c)

/-- The per-container candidate loop of `FindLeaks` over one
container's outgoing edges: non-`element` edges are skipped; for each
element the retaining paths are scanned for the first one whose last
node is not a bad stop node ("first good path wins"); on success the
good path's nodes join the stop set, on failure a `LeakNode` is
emitted.  Returns the grown stop set and the leaks in emission order. -/
def ProcessContainerEdges (g : NodeDict) (bad : List Nat) (container_name pre suf : String) :
    List Edge → List Nat → List Nat × List LeakNode
  | [], stop => (stop, [])
  | e :: rest, stop =>
    if e.type_string == "element" then
      let c := e.toRef
      match (FindRetainingPaths g c [c] stop 30).find?
          (fun p => !(bad.contains (p.getLastD 0))) with
      | some p => ProcessContainerEdges g bad container_name pre suf rest (stop ++ p)
      | none =>
        let out := ProcessContainerEdges g bad container_name pre suf rest stop
        (out.1, ⟨c, "Leak", pre ++ container_name ++ "[" ++ e.name_string ++ "]", suf⟩ :: out.2)
    else ProcessContainerEdges g bad container_name pre suf rest stop

/-- The outer candidate loop of `FindLeaks` over the classified
containers, threading the monotonically growing stop set. -/
def CandidateLoop (g : NodeDict) (bad : List Nat) :
    List (Nat × String) → List Nat → String → String → List LeakNode
  | [], _, _, _ => []
  | (cid, cname) :: rest, stop, pre, suf =>
    let out := ProcessContainerEdges g bad cname pre suf (nodeAt g cid).edges_from stop
    out.2 ++ CandidateLoop g bad rest out.1 pre suf

/-- `LeakFinder.FindLeaks` (with `LeakFinder.__init__`'s splitting of
the dot-separated descriptors): classification pass, the
container-not-found check, then the candidate loop; the emitted
`LeakNode`s in order.  The generator's `raise` before any yield is the
`Except.error` case. -/
def FindLeaks (g : NodeDict) (containers bad_stop_nodes : List String) (pre suf : String) :
    Except String (List LeakNode) :=
  let contDesc := containers.map splitDot
  let badDesc := bad_stop_nodes.map splitDot
  let r := Classify g badDesc contDesc
  match CheckContainers contDesc r.found_container_edges with
  | Except.error m => Except.error m
  | Except.ok _ => Except.ok (CandidateLoop g r.bad_stop_nodes r.containers r.stop_nodes pre suf)

/-! ### Suppression matcher (`suppressions.py`). -/

/-- The regular-expression fragments `_ConvertStackToRegex` emits:
escaped literal characters, the `.*` between wildcard fragments (any
run of non-newline characters), and the `(.*\n)*` ellipsis fragment
(zero or more whole lines). -/
inductive RTok where
  | lit : Char → RTok
  | dotStar : RTok
  | lineStar : RTok
deriving DecidableEq

/-- `re.escape(fragment)` — a literal character sequence. -/
def litToks (l : List Char) : List RTok := l.map RTok.lit

/-- Python `'.*'.join(parts)` on token lists. -/
def joinWithDotStar : List (List RTok) → List RTok
  | [] => []
  | [x] => x
  | x :: xs => x ++ RTok.dotStar :: joinWithDotStar xs

/-- One non-ellipsis frame: split on the `*` wildcard, escape the
fragments, join with `.*`, and append the line terminator. -/
def frameToRegex (frame : String) : List RTok :=
  joinWithDotStar ((splitChar '*' frame.data).map litToks) ++ [RTok.lit '\n']

/-- The token loop of `_ConvertStackToRegex`: the ellipsis becomes the
zero-or-more-lines fragment only when `regex_parts` is already
non-empty, i.e. for every token after the first. -/
def convertStackToRegexGo : List String → Bool → List RTok
  | [], _ => []
  | f :: rest, isFirst =>
    (if f == "..." && !isFirst then [RTok.lineStar] else frameToRegex f) ++
      convertStackToRegexGo rest false

/-- `Suppression._ConvertStackToRegex`: the class-name pattern is
prepended to the stack patterns and the combined sequence compiled. -/
def convertStackToRegex (class_name : String) (stack : List String) : List RTok :=
  convertStackToRegexGo (class_name :: stack) true

/-- Length of the maximal newline-free run at the head of `s` (how far
`.*` can reach). -/
def takeNoNL : List Char → Nat
  | [] => 0
  | c :: cs => if c = '\n' then 0 else takeNoNL cs + 1

/-- Fueled backtracking matcher for the emitted token language, with
Python `re.match` semantics: success iff some prefix of the text
matches (no end anchor); `.` never matches a newline (`re.MULTILINE`
only alters `^`/`$`, which the emitted patterns do not use).  Every
recursive call shrinks `pattern.length + text.length`, so the wrapper's
fuel is never exhausted. -/
def rmatchAux : Nat → List RTok → List Char → Bool
  | 0, _, _ => false
  | _ + 1, [], _ => true
  | fuel + 1, RTok.lit c :: p, s =>
    match s with
    | [] => false
    | x :: xs => x == c && rmatchAux fuel p xs
  | fuel + 1, RTok.dotStar :: p, s =>
    rmatchAux fuel p s ||
      (match s with
      | [] => false
      | x :: xs => !(x == '\n') && rmatchAux fuel (RTok.dotStar :: p) xs)
  | fuel + 1, RTok.lineStar :: p, s =>
    rmatchAux fuel p s ||
      (match s.drop (takeNoNL s) with
      | '\n' :: rest => rmatchAux fuel (RTok.lineStar :: p) rest
      | _ => false)

/-- `compiledPattern.match(text)` as a Boolean. -/
def rmatch (p : List RTok) (s : List Char) : Bool :=
  rmatchAux (p.length + s.length + 1) p s

/-- `Suppression`: description, class-name pattern and stack patterns
(`_stack`); the compiled regex is derived below. -/
structure Suppression where
  description : String
  class_name : String
  stack : List String

/-- The derived `_regex` of a suppression. -/
def Suppression.regexToks (sup : Suppression) : List RTok :=
  convertStackToRegex sup.class_name sup.stack

/-- `'\n'.join([class_name] + stack) + '\n'`, the text `Match` tests. -/
def matchText (class_name : String) (stack : List String) : List Char :=
  joinChar '\n' ((class_name :: stack).map String.data) ++ ['\n']

/-- `Suppression.Match`: false for an empty `_stack`, else the anchored
prefix match of the compiled pattern against the joined text. -/
def Suppression.Match (sup : Suppression) (class_name : String) (stack : List String) : Bool :=
  !sup.stack.isEmpty && rmatch sup.regexToks (matchText class_name stack)

/-! ### Concrete snapshots and graphs used by the claims. -/

/-- A two-node, one-edge snapshot in the edges-index layout: node `Foo`
(id 1) points to node `Bar` (id 3) through a `property` edge labelled
`childName`; `Foo`'s edge slice starts at 0, `Bar`'s at 3 (= end). -/
def heapIdx : Heap :=
  { nodes := [0, 0, 1, 0, 0, 1, 3, 3]
    edges := [0, 2, 4]
    strings := ["Foo", "Bar", "childName"]
    node_types := ["object"]
    edge_types := ["property"]
    node_fields := ["type", "name", "id", "edges_index"]
    edge_fields := ["type", "name_or_index", "to_node"] }

/-- The same payload in the edge-count layout: `Foo` has `edge_count`
1, `Bar` 0; everything else is identical to `heapIdx`. -/
def heapCount : Heap :=
  { nodes := [0, 0, 1, 1, 0, 1, 3, 0]
    edges := [0, 2, 4]
    strings := ["Foo", "Bar", "childName"]
    node_types := ["object"]
    edge_types := ["property"]
    node_fields := ["type", "name", "id", "edge_count"]
    edge_fields := ["type", "name_or_index", "to_node"] }

/-- The single edge of the two-node snapshot after endpoint resolution. -/
def sampleEdgeR : Edge := ⟨1, 3, some 1, some 3, "property", "childName"⟩

/-- Parsed `Foo`: the kept edge sits in its outgoing list. -/
def nFoo : Node := ⟨1, "object", "Foo", [], [sampleEdgeR], ""⟩

/-- Parsed `Bar`: the kept edge sits in its incoming list. -/
def nBar : Node := ⟨3, "object", "Bar", [sampleEdgeR], [], ""⟩

/-- The graph both layouts parse to. -/
def parsedTwoNode : NodeDict := [(1, nFoo), (3, nBar)]

/-- The `Snapshotter` state `ReadSnapshot heapIdx` produces (checked by
`rfl` in the witness for the parsing claim). -/
def sIdx : Snapshotter :=
  { node_list := [0, 0, 1, 0, 0, 1, 3, 3]
    edge_list := [0, 2, 4]
    strings := ["Foo", "Bar", "childName"]
    node_types := ["object"]
    edge_types := ["property"]
    node_type_ix := 0
    node_name_ix := 1
    node_id_ix := 2
    node_edge_count_format := false
    node_edges_start_ix := 3
    node_edge_count_ix := 0
    node_field_count := 4
    edge_type_ix := 0
    edge_name_or_ix_ix := 1
    edge_to_node_ix := 2
    edge_field_count := 3 }

/-- The first-pass node dictionary for `heapIdx`: edges still
unresolved and attached only to the originating node's outgoing list. -/
def firstPassTwoNode : NodeDict :=
  [(1, ⟨1, "object", "Foo", [], [⟨1, 3, none, none, "property", "childName"⟩], ""⟩),
   (3, ⟨3, "object", "Bar", [], [], ""⟩)]

/-- A retention cycle behind a container element: container `Holder`
(id 1, matched by chain `cont` through retainer id 10) has one
`element` edge to id 2, and ids 2, 3, 4 retain each other in a pure
cycle (2 ← 3 ← 4 ← 2) with no other incoming edges. -/
def gCycle : NodeDict :=
  [(10, ⟨10, "object", "Obj", [], [⟨10, 1, some 10, some 1, "property", "cont"⟩], ""⟩),
   (1, ⟨1, "object", "Holder", [⟨10, 1, some 10, some 1, "property", "cont"⟩],
        [⟨1, 2, some 1, some 2, "element", "0"⟩], ""⟩),
   (2, ⟨2, "object", "Leaky", [⟨3, 2, some 3, some 2, "property", "x"⟩],
        [⟨2, 4, some 2, some 4, "property", "z"⟩], ""⟩),
   (3, ⟨3, "object", "Leaky", [⟨4, 3, some 4, some 3, "property", "y"⟩],
        [⟨3, 2, some 3, some 2, "property", "x"⟩], ""⟩),
   (4, ⟨4, "object", "Leaky", [⟨2, 4, some 2, some 4, "property", "z"⟩],
        [⟨4, 3, some 4, some 3, "property", "y"⟩], ""⟩)]

/-! ### Claim theorems (concrete claims). -/

/-- Claim C2: the two-node, one-edge payload parses identically under
the edges-index and the edge-count layout: the same graph with exactly
2 nodes and a single resolved edge whose endpoints (id 1 → id 3), kind
(`property`) and label (`childName`) match the input, the slice ends
being taken from the next node's start offset in the first layout and
from the advanced cursor in the second. -/
theorem C2_layout_equivalence :
    GetSnapshot heapIdx = Except.ok parsedTwoNode ∧
    GetSnapshot heapCount = Except.ok parsedTwoNode ∧
    parsedTwoNode.length = 2 ∧
    (nodeAt parsedTwoNode 1).edges_from = [sampleEdgeR] ∧
    (nodeAt parsedTwoNode 3).edges_to = [sampleEdgeR] ∧
    sampleEdgeR.from_node_id = 1 ∧ sampleEdgeR.to_node_id = 3 ∧
    sampleEdgeR.type_string = "property" ∧ sampleEdgeR.name_string = "childName" :=
  ⟨rfl, rfl, rfl, rfl, rfl, rfl, rfl, rfl, rfl⟩

/-- Claim C1, counterexample: on the concrete two-node snapshot the
kept edge is attached to the originating node's *outgoing* list
(`edges_from`), not its incoming list (`edges_to`, which stays empty),
and the second pass appends it to the target's *incoming* list
(`edges_to`), not its outgoing list (`edges_from`, which stays empty) —
the opposite of what the claim states. -/
theorem C1_counterexample :
    GetSnapshot heapIdx = Except.ok parsedTwoNode ∧
    lookupNode parsedTwoNode 1 = some nFoo ∧
    lookupNode parsedTwoNode 3 = some nBar ∧
    sampleEdgeR ∈ nFoo.edges_from ∧ ¬ sampleEdgeR ∈ nFoo.edges_to ∧
    sampleEdgeR ∈ nBar.edges_to ∧ ¬ sampleEdgeR ∈ nBar.edges_from :=
  ⟨rfl, rfl, rfl, by decide, by decide, by decide, by decide⟩

/-- Claim C4: for the pure retention cycle `2 ← 3 ← 4 ← 2` the search
starting at the container element (id 2) yields zero paths, and the
element is therefore classified as leaking with locator expression
`prefix + containerName + "[" + elementLabel + "]"`. -/
theorem C4_pure_cycle_leak :
    FindRetainingPaths gCycle 2 [2] [1] 30 = [] ∧
    FindLeaks gCycle ["cont"] [] "p." ".s" =
      Except.ok [⟨2, "Leak", "p.cont[0]", ".s"⟩] :=
  ⟨rfl, rfl⟩

/-- Claim C7: the suppression `["foo"] / ["...", "bar"]` matches
`("foo", ["bar"])`, `("foo", ["x","bar"])`, `("foo", ["x","y","bar"])`,
rejects `("foo", ["x","y"])` and `("x", ["y","bar"])`, and — since the
match only anchors at the start of the joined text — also accepts
appended trailing frames, `("foo", ["bar","extra"])`. -/
theorem C7_ellipsis_matching :
    (Suppression.Match ⟨"d", "foo", ["...", "bar"]⟩ "foo" ["bar"] = true) ∧
    (Suppression.Match ⟨"d", "foo", ["...", "bar"]⟩ "foo" ["x", "bar"] = true) ∧
    (Suppression.Match ⟨"d", "foo", ["...", "bar"]⟩ "foo" ["x", "y", "bar"] = true) ∧
    (Suppression.Match ⟨"d", "foo", ["...", "bar"]⟩ "foo" ["x", "y"] = false) ∧
    (Suppression.Match ⟨"d", "foo", ["...", "bar"]⟩ "x" ["y", "bar"] = false) ∧
    (Suppression.Match ⟨"d", "foo", ["...", "bar"]⟩ "foo" ["bar", "extra"] = true) :=
  ⟨rfl, rfl, rfl, rfl, rfl, rfl⟩

/-- Claim C8: the ellipsis is positional.  In class-name position the
token `"..."` compiles to the escaped literal three dots followed by
the line terminator (so it matches exactly the class name `"..."` and
rejects others), while in stack-frame position the same token matches
zero or more whole frames. -/
theorem C8_ellipsis_positional :
    (convertStackToRegex "..." ["f"] =
      [RTok.lit '.', RTok.lit '.', RTok.lit '.', RTok.lit '\n', RTok.lit 'f', RTok.lit '\n']) ∧
    (Suppression.Match ⟨"d", "...", ["f"]⟩ "..." ["f"] = true) ∧
    (Suppression.Match ⟨"d", "...", ["f"]⟩ "abc" ["f"] = false) ∧
    (Suppression.Match ⟨"d", "...", ["f"]⟩ "x" ["f"] = false) ∧
    (Suppression.Match ⟨"d", "C", ["...", "f"]⟩ "C" ["f"] = true) ∧
    (Suppression.Match ⟨"d", "C", ["...", "f"]⟩ "C" ["x", "f"] = true) ∧
    (Suppression.Match ⟨"d", "C", ["...", "f"]⟩ "C" ["x", "y", "f"] = true) :=
  ⟨rfl, rfl, rfl, rfl, rfl, rfl, rfl⟩

/-- Claim C9: a suppression whose frame-pattern list is empty matches
nothing — `Match` is false for every class name and every frame list
(the `if self._stack` test short-circuits before the regex runs). -/
theorem C9_empty_stack_never_matches (d cn cls : String) (stk : List String) :
    Suppression.Match ⟨d, cn, []⟩ cls stk = false :=
  rfl

/-! ### Invariants of the retaining-path search (claim C5). -/

/-- Every path yielded by the fueled search respects the depth bound
and, when the visited prefix has no duplicates, contains no node twice. -/
lemma frpAux_path_inv (g : NodeDict) :
    ∀ (fuel node : Nat) (visited stop : List Nat) (maxd : Nat) (p : List Nat),
      p ∈ FindRetainingPathsAux g fuel node visited stop maxd →
      p.length ≤ maxd ∧ (visited.Nodup → p.Nodup) := by
  intro fuel
  induction fuel with
  | zero =>
    intro node visited stop maxd p hp
    simp [FindRetainingPathsAux] at hp
  | succ f ih =>
    intro node visited stop maxd p hp
    rw [FindRetainingPathsAux] at hp
    split at hp
    · simp at hp
    · rename_i hlen
      split at hp
      · rw [List.mem_singleton] at hp
        subst hp
        exact ⟨by omega, fun h => h⟩
      · rw [List.mem_flatMap] at hp
        obtain ⟨e, _, hpe⟩ := hp
        split at hpe
        · simp at hpe
        · rename_i hnm
          have h2 := ih e.fromRef (visited ++ [e.fromRef]) stop maxd p hpe
          refine ⟨h2.1, fun hnd => h2.2 ?_⟩
          have hiff : (visited ++ [e.fromRef]).Nodup ↔ visited.Nodup ∧ e.fromRef ∉ visited := by
            simp [List.nodup_append]
          refine hiff.mpr ⟨hnd, fun hc => hnm ?_⟩
          simpa using hc

/-- Claim C5: every path the retaining-path search yields from a start
node contains at most 30 nodes and no node twice; a path that would
exceed the depth bound is cut off before being yielded, so it simply
never appears among the results. -/
theorem C5_path_invariants (g : NodeDict) (start : Nat) (stop : List Nat) (p : List Nat)
    (hp : p ∈ FindRetainingPaths g start [start] stop 30) :
    p.length ≤ 30 ∧ p.Nodup := by
  have h := frpAux_path_inv g (30 + 2 - [start].length) start [start] stop 30 p hp
  exact ⟨h.1, h.2 (by simp)⟩

/-- Witness for C5 at a concrete input: the search from the container
node of `gCycle` (no stop nodes) yields the path `[1, 10]`, which has
at most 30 nodes and no duplicates. -/
theorem C5_witness :
    [1, 10] ∈ FindRetainingPaths gCycle 1 [1] [] 30 ∧
      ([1, 10] : List Nat).length ≤ 30 ∧ ([1, 10] : List Nat).Nodup :=
  ⟨by decide, C5_path_invariants gCycle 1 [] [1, 10] (by decide)⟩

/-! ### Properties of the classification pass. -/

/-- `splitChar` never returns the empty list. -/
lemma splitChar_ne_nil (c : Char) : ∀ l : List Char, splitChar c l ≠ [] := by
  intro l
  cases l with
  | nil => simp [splitChar]
  | cons a rest =>
    rw [splitChar]
    cases h : splitChar c rest with
    | nil => simp
    | cons hd tl =>
      by_cases hac : a = c <;> simp [hac]

/-- Python `s.split('.')` never returns the empty list, so every
descriptor chain built by `LeakFinder.__init__` is non-empty. -/
lemma splitDot_ne_nil (s : String) : splitDot s ≠ [] := by
  unfold splitDot
  intro h
  exact splitChar_ne_nil '.' s.data (List.map_eq_nil_iff.mp h)

/-- A node matched by a non-empty chain has at least one incoming edge. -/
lemma retained_edges_to_ne_nil (g : NodeDict) (n : Node) (names : List String)
    (hne : names ≠ []) (h : IsRetainedByEdges g n names = true) : n.edges_to ≠ [] := by
  intro hnil
  unfold IsRetainedByEdges IsRetainedByEdgesAux at h
  cases names with
  | nil => exact hne rfl
  | cons a l => simp [hnil] at h

/-- Association-list lookup agrees with membership when keys are
unique. -/
lemma lookup_of_mem_nodup : ∀ (d : NodeDict) (k : Nat) (n : Node),
    (d.map Prod.fst).Nodup → (k, n) ∈ d → lookupNode d k = some n := by
  intro d
  induction d with
  | nil => intro k n _ h; simp at h
  | cons p rest ih =>
    intro k n hnd h
    obtain ⟨p1, p2⟩ := p
    rw [List.map_cons, List.nodup_cons] at hnd
    rw [lookupNode]
    rcases List.mem_cons.mp h with heq | hmem
    · rw [Prod.mk.injEq] at heq
      rw [if_pos heq.1.symm, heq.2]
    · have hk : p1 ≠ k := by
        intro he
        subst he
        have hin : p1 ∈ List.map Prod.fst rest := List.mem_map.mpr ⟨(p1, n), hmem, rfl⟩
        exact hnd.1 hin
      rw [if_neg hk]
      exact ih k n hnd.2 hmem

/-- With unique keys, a key is bound to at most one node. -/
lemma mem_nodup_unique (d : NodeDict) (k : Nat) (a b : Node)
    (hnd : (d.map Prod.fst).Nodup) (ha : (k, a) ∈ d) (hb : (k, b) ∈ d) : a = b := by
  have h1 := lookup_of_mem_nodup d k a hnd ha
  have h2 := lookup_of_mem_nodup d k b hnd hb
  rw [h1] at h2
  exact Option.some.inj h2

/-- Unfolding of the bad-chain step on the bad-stop set. -/
lemma stepBadChains_bad (g : NodeDict) (bd : List (List String)) (r : ClassifyResult)
    (e : Nat × Node) (nid : Nat)
    (h : nid ∈ (StepBadChains g bd r e).bad_stop_nodes) :
    nid ∈ r.bad_stop_nodes ∨
      (nid = e.1 ∧ ∃ chain ∈ bd, IsRetainedByEdges g e.2 chain = true) := by
  unfold StepBadChains at h
  split at h
  · rename_i c hfind
    simp only [List.mem_append, List.mem_singleton] at h
    rcases h with h | h
    · exact Or.inl h
    · exact Or.inr ⟨h, c, List.mem_of_find?_eq_some hfind, List.find?_some hfind⟩
  · exact Or.inl h

/-- Unfolding of the container-chain step on the bad-stop set. -/
lemma stepContainerChains_bad (g : NodeDict) (cd : List (List String)) (r : ClassifyResult)
    (e : Nat × Node) (nid : Nat)
    (h : nid ∈ (StepContainerChains g cd r e).bad_stop_nodes) :
    nid ∈ r.bad_stop_nodes ∨
      (nid = e.1 ∧ ∃ chain ∈ cd, IsRetainedByEdges g e.2 chain = true) := by
  unfold StepContainerChains at h
  split at h
  · rename_i c hfind
    simp only [List.mem_append, List.mem_singleton] at h
    rcases h with h | h
    · exact Or.inl h
    · exact Or.inr ⟨h, c, List.mem_of_find?_eq_some hfind, List.find?_some hfind⟩
  · exact Or.inl h

/-- Where a node id in the final bad-stop set can come from: one
non-Window entry of the dictionary, matched by a bad or container
chain. -/
lemma stepClassify_bad (g : NodeDict) (bd cd : List (List String)) (r : ClassifyResult)
    (e : Nat × Node) (nid : Nat)
    (h : nid ∈ (StepClassify g bd cd r e).bad_stop_nodes) :
    nid ∈ r.bad_stop_nodes ∨
      (nid = e.1 ∧ isWindowName e.2.class_name = false ∧
        ∃ chain, (chain ∈ bd ∨ chain ∈ cd) ∧ IsRetainedByEdges g e.2 chain = true) := by
  unfold StepClassify at h
  split at h
  · exact Or.inl h
  · rename_i hwin
    rcases stepContainerChains_bad g cd _ e nid h with h1 | ⟨he, chain, hc, hm⟩
    · rcases stepBadChains_bad g bd r e nid h1 with h2 | ⟨he, chain, hc, hm⟩
      · exact Or.inl h2
      · exact Or.inr ⟨he, Bool.not_eq_true _ ▸ (by simpa using hwin), chain, Or.inl hc, hm⟩
    · exact Or.inr ⟨he, Bool.not_eq_true _ ▸ (by simpa using hwin), chain, Or.inr hc, hm⟩

/-- List version of `stepClassify_bad`. -/
lemma classifyList_bad (g : NodeDict) (bd cd : List (List String)) :
    ∀ (entries : List (Nat × Node)) (r : ClassifyResult) (nid : Nat),
      nid ∈ (ClassifyList g bd cd entries r).bad_stop_nodes →
      nid ∈ r.bad_stop_nodes ∨
        ∃ n, (nid, n) ∈ entries ∧ isWindowName n.class_name = false ∧
          ∃ chain, (chain ∈ bd ∨ chain ∈ cd) ∧ IsRetainedByEdges g n chain = true := by
  intro entries
  induction entries with
  | nil => intro r nid h; exact Or.inl h
  | cons e rest ih =>
    intro r nid h
    rw [ClassifyList] at h
    rcases ih _ nid h with h' | ⟨n, hn, hw, hc⟩
    · rcases stepClassify_bad g bd cd r e nid h' with h'' | ⟨he, hw, hc⟩
      · exact Or.inl h''
      · exact Or.inr ⟨e.2, by rw [he]; exact List.mem_cons_self _ _, hw, hc⟩
    · exact Or.inr ⟨n, List.mem_cons_of_mem _ hn, hw, hc⟩

/-- A node id in the bad-stop set built by the classification pass
always belongs to a node with at least one incoming edge (chains are
`split('.')` results, hence non-empty). -/
lemma classify_bad_edges_ne (g : NodeDict) (conts bads : List String) (nid : Nat)
    (hkn : (g.map Prod.fst).Nodup)
    (h : nid ∈ (Classify g (bads.map splitDot) (conts.map splitDot)).bad_stop_nodes) :
    (nodeAt g nid).edges_to ≠ [] := by
  rcases classifyList_bad g _ _ g ⟨[], [], [], []⟩ nid h with h' | ⟨n, hn, _, chain, hch, hm⟩
  · simp at h'
  · have hchne : chain ≠ [] := by
      rcases hch with hch | hch <;>
        · obtain ⟨s, _, rfl⟩ := List.mem_map.mp hch
          exact splitDot_ne_nil s
    have hne := retained_edges_to_ne_nil g n chain hchne hm
    have hl := lookup_of_mem_nodup g nid n hkn hn
    unfold nodeAt
    rw [hl]
    exact hne

/-- A start node without incoming edges makes the fueled search yield
the single one-node path immediately. -/
lemma frpAux_no_incoming (g : NodeDict) (c : Nat) (visited stop : List Nat) (f maxd : Nat)
    (h : (nodeAt g c).edges_to = []) (hlen : ¬ maxd < visited.length) :
    FindRetainingPathsAux g (f + 1) c visited stop maxd = [visited] := by
  rw [FindRetainingPathsAux]
  rw [if_neg hlen, h]
  simp

/-- Claim C3's first half in general form: the retaining-path search
from a node with no incoming edges yields exactly the one-node path. -/
lemma frp_no_incoming (g : NodeDict) (c : Nat) (stop : List Nat)
    (h : (nodeAt g c).edges_to = []) :
    FindRetainingPaths g c [c] stop 30 = [[c]] := by
  unfold FindRetainingPaths
  exact frpAux_no_incoming g c [c] stop 30 30 h (by simp)

/-- Every leak the per-container loop emits failed its path scan: at
the stop set current when it was examined, no yielded path ends
outside the bad set. -/
lemma processEdges_leak (g : NodeDict) (bad : List Nat) (cname pre suf : String) :
    ∀ (edges : List Edge) (stop : List Nat) (l : LeakNode),
      l ∈ (ProcessContainerEdges g bad cname pre suf edges stop).2 →
      ∃ stop1, (FindRetainingPaths g l.node [l.node] stop1 30).find?
          (fun p => !(bad.contains (p.getLastD 0))) = none := by
  intro edges
  induction edges with
  | nil => intro stop l h; simp [ProcessContainerEdges] at h
  | cons e rest ih =>
    intro stop l h
    rw [ProcessContainerEdges] at h
    split at h
    · dsimp only at h
      split at h
      · exact ih _ l h
      · rename_i hfind
        rcases List.mem_cons.mp h with rfl | hmem
        · exact ⟨stop, hfind⟩
        · exact ih _ l hmem
    · exact ih _ l h

/-- Every leak `CandidateLoop` emits failed its path scan at some stop
set. -/
lemma candidateLoop_leak (g : NodeDict) (bad : List Nat) :
    ∀ (conts : List (Nat × String)) (stop : List Nat) (pre suf : String) (l : LeakNode),
      l ∈ CandidateLoop g bad conts stop pre suf →
      ∃ stop1, (FindRetainingPaths g l.node [l.node] stop1 30).find?
          (fun p => !(bad.contains (p.getLastD 0))) = none := by
  intro conts
  induction conts with
  | nil => intro stop pre suf l h; simp [CandidateLoop] at h
  | cons c rest ih =>
    intro stop pre suf l h
    obtain ⟨cid, cname⟩ := c
    rw [CandidateLoop] at h
    rcases List.mem_append.mp h with hmem | hmem
    · exact processEdges_leak g bad cname pre suf _ stop l hmem
    · exact ih _ pre suf l hmem

/-- Claim C3: a node with no incoming edges immediately yields the
single one-node path consisting of itself, and — for any graph with
unique node ids and any container/bad-retainer configuration — a node
with no incoming edges is never emitted as a leak, since its one-node
path's terminal cannot be in the bad-stop set. -/
theorem C3_no_incoming_never_leaks :
    (∀ (g : NodeDict) (c : Nat) (stop : List Nat), (nodeAt g c).edges_to = [] →
      FindRetainingPaths g c [c] stop 30 = [[c]]) ∧
    (∀ (g : NodeDict) (conts bads : List String) (pre suf : String) (leaks : List LeakNode),
      (g.map Prod.fst).Nodup →
      FindLeaks g conts bads pre suf = Except.ok leaks →
      ∀ l ∈ leaks, (nodeAt g l.node).edges_to ≠ []) := by
  refine ⟨frp_no_incoming, ?_⟩
  intro g conts bads pre suf leaks hkn hok l hl hempty
  unfold FindLeaks at hok
  dsimp only at hok
  split at hok
  · exact absurd hok (by simp)
  · rw [Except.ok.injEq] at hok
    subst hok
    obtain ⟨stop1, hnone⟩ := candidateLoop_leak g _ _ _ pre suf l hl
    rw [frp_no_incoming g l.node stop1 hempty] at hnone
    have hall := List.find?_eq_none.mp hnone [l.node] (List.mem_singleton_self _)
    have hcon : l.node ∈ (Classify g (bads.map splitDot) (conts.map splitDot)).bad_stop_nodes := by
      simp only [List.getLastD, Bool.not_eq_true', Bool.not_eq_false] at hall
      simpa using hall
    exact classify_bad_edges_ne g conts bads l.node hkn hcon hempty

/-- Witness for C3 at concrete inputs: node 10 of `gCycle` has no
incoming edges and its search yields exactly the one-node path; the
single leak `FindLeaks` emits on `gCycle` is a node with incoming
edges. -/
theorem C3_witness :
    FindRetainingPaths gCycle 10 [10] [] 30 = [[10]] ∧
      (nodeAt gCycle 2).edges_to ≠ [] :=
  ⟨C3_no_incoming_never_leaks.1 gCycle 10 [] (by decide),
   C3_no_incoming_never_leaks.2 gCycle ["cont"] [] "p." ".s"
     [⟨2, "Leak", "p.cont[0]", ".s"⟩] (by decide) rfl
     ⟨2, "Leak", "p.cont[0]", ".s"⟩ (by decide)⟩

/-! ### The container-not-found check (claims C6 and C10). -/

/-- If some configured chain is missing from the found set, the check
fails with a `Container not found` error naming (the first) such
chain. -/
lemma checkContainers_error (found : List String) :
    ∀ descL : List (List String), (∃ ch ∈ descL, joinDot ch ∉ found) →
      ∃ ch ∈ descL, joinDot ch ∉ found ∧
        CheckContainers descL found = Except.error ("Container not found: " ++ joinDot ch) := by
  intro descL
  induction descL with
  | nil => intro h; simp at h
  | cons c rest ih =>
    intro h
    by_cases hc : joinDot c ∈ found
    · have hrest : ∃ ch ∈ rest, joinDot ch ∉ found := by
        obtain ⟨ch, hch, hmiss⟩ := h
        rcases List.mem_cons.mp hch with rfl | hch'
        · exact absurd hc hmiss
        · exact ⟨ch, hch', hmiss⟩
      obtain ⟨ch, hch, hmiss, herr⟩ := ih hrest
      refine ⟨ch, List.mem_cons_of_mem _ hch, hmiss, ?_⟩
      rw [CheckContainers, if_pos hc]
      exact herr
    · refine ⟨c, List.mem_cons_self _ _, hc, ?_⟩
      rw [CheckContainers, if_neg hc]

/-- Claim C6: when some configured container chain matched no node
during classification, `FindLeaks` fails with a `Container not found`
error naming a missing chain joined by dots, producing no leak
candidates at all. -/
theorem C6_container_not_found (g : NodeDict) (conts bads : List String) (pre suf : String)
    (h : ∃ c ∈ conts, joinDot (splitDot c) ∉
        (Classify g (bads.map splitDot) (conts.map splitDot)).found_container_edges) :
    ∃ c ∈ conts,
      joinDot (splitDot c) ∉
        (Classify g (bads.map splitDot) (conts.map splitDot)).found_container_edges ∧
      FindLeaks g conts bads pre suf =
        Except.error ("Container not found: " ++ joinDot (splitDot c)) := by
  obtain ⟨c, hc, hmiss⟩ := h
  have hex : ∃ ch ∈ conts.map splitDot,
      joinDot ch ∉
        (Classify g (bads.map splitDot) (conts.map splitDot)).found_container_edges :=
    ⟨splitDot c, List.mem_map_of_mem splitDot hc, hmiss⟩
  obtain ⟨ch, hch, hmiss', herr⟩ := checkContainers_error _ _ hex
  obtain ⟨c', hc', rfl⟩ := List.mem_map.mp hch
  refine ⟨c', hc', hmiss', ?_⟩
  unfold FindLeaks
  dsimp only
  rw [herr]

/-- Witness for C6: the empty graph misses the configured container
`a.b`, and `FindLeaks` fails with the corresponding error. -/
theorem C6_witness :
    ∃ c ∈ (["a.b"] : List String),
      joinDot (splitDot c) ∉
        (Classify ([] : NodeDict) (([] : List String).map splitDot)
          ((["a.b"] : List String).map splitDot)).found_container_edges ∧
      FindLeaks ([] : NodeDict) ["a.b"] [] "" "" =
        Except.error ("Container not found: " ++ joinDot (splitDot c)) :=
  C6_container_not_found [] ["a.b"] [] "" "" ⟨"a.b", by decide, by decide⟩

/-! ### Round trip of `split('.')` and `'.'.join`. -/

/-- Prepending a character to the first group commutes with joining. -/
lemma joinChar_cons (c a : Char) (h : List Char) (t : List (List Char)) :
    joinChar c ((a :: h) :: t) = a :: joinChar c (h :: t) := by
  cases t with
  | nil => rfl
  | cons x xs => rfl

/-- Joining the split of a character list gives it back. -/
lemma joinChar_splitChar (c : Char) : ∀ l : List Char, joinChar c (splitChar c l) = l := by
  intro l
  induction l with
  | nil => rfl
  | cons a rest ih =>
    rw [splitChar]
    cases h : splitChar c rest with
    | nil => exact absurd h (splitChar_ne_nil c rest)
    | cons hd tl =>
      rw [h] at ih
      dsimp only
      by_cases hac : a = c
      · rw [if_pos hac]
        simp [joinChar, ih, hac]
      · rw [if_neg hac, joinChar_cons, ih]

/-- `'.'.join(s.split('.')) == s`. -/
lemma joinDot_splitDot (s : String) : joinDot (splitDot s) = s := by
  unfold joinDot splitDot
  rw [List.map_map]
  have h0 : (String.data ∘ fun l => String.mk l) = id := rfl
  rw [h0, List.map_id, joinChar_splitChar]

/-- Two descriptors with the same dot-joined split are equal. -/
lemma splitDot_inj (a b : String) (h : joinDot (splitDot a) = joinDot (splitDot b)) : a = b := by
  rw [joinDot_splitDot, joinDot_splitDot] at h
  exact h

/-! ### Window nodes in the classification pass (claim C10). -/

/-- The bad-chain step only appends to the stop set. -/
lemma stepBadChains_stop_mono (g : NodeDict) (bd : List (List String)) (r : ClassifyResult)
    (e : Nat × Node) (nid : Nat) (h : nid ∈ r.stop_nodes) :
    nid ∈ (StepBadChains g bd r e).stop_nodes := by
  unfold StepBadChains
  split
  · exact List.mem_append_left _ h
  · exact h

/-- The container-chain step only appends to the stop set. -/
lemma stepContainerChains_stop_mono (g : NodeDict) (cd : List (List String)) (r : ClassifyResult)
    (e : Nat × Node) (nid : Nat) (h : nid ∈ r.stop_nodes) :
    nid ∈ (StepContainerChains g cd r e).stop_nodes := by
  unfold StepContainerChains
  split
  · exact List.mem_append_left _ h
  · exact h

/-- One classification step only appends to the stop set. -/
lemma stepClassify_stop_mono (g : NodeDict) (bd cd : List (List String)) (r : ClassifyResult)
    (e : Nat × Node) (nid : Nat) (h : nid ∈ r.stop_nodes) :
    nid ∈ (StepClassify g bd cd r e).stop_nodes := by
  unfold StepClassify
  split
  · exact List.mem_append_left _ h
  · exact stepContainerChains_stop_mono g cd _ e nid (stepBadChains_stop_mono g bd r e nid h)

/-- The classification loop only appends to the stop set. -/
lemma classifyList_stop_mono (g : NodeDict) (bd cd : List (List String)) :
    ∀ (entries : List (Nat × Node)) (r : ClassifyResult) (nid : Nat),
      nid ∈ r.stop_nodes → nid ∈ (ClassifyList g bd cd entries r).stop_nodes := by
  intro entries
  induction entries with
  | nil => intro r nid h; exact h
  | cons e rest ih =>
    intro r nid h
    rw [ClassifyList]
    exact ih _ nid (stepClassify_stop_mono g bd cd r e nid h)

/-- A Window-named entry always lands in the stop set. -/
lemma classifyList_window_stop (g : NodeDict) (bd cd : List (List String)) :
    ∀ (entries : List (Nat × Node)) (r : ClassifyResult) (nid : Nat) (n : Node),
      (nid, n) ∈ entries → isWindowName n.class_name = true →
      nid ∈ (ClassifyList g bd cd entries r).stop_nodes := by
  intro entries
  induction entries with
  | nil => intro r nid n h _; simp at h
  | cons e rest ih =>
    intro r nid n h hw
    rw [ClassifyList]
    rcases List.mem_cons.mp h with rfl | hmem
    · apply classifyList_stop_mono
      simp [StepClassify, hw]
    · exact ih _ nid n hmem hw

/-- The bad-chain step leaves the container set alone. -/
lemma stepBadChains_containers (g : NodeDict) (bd : List (List String)) (r : ClassifyResult)
    (e : Nat × Node) : (StepBadChains g bd r e).containers = r.containers := by
  unfold StepBadChains
  split <;> rfl

/-- The bad-chain step leaves the found set alone. -/
lemma stepBadChains_found (g : NodeDict) (bd : List (List String)) (r : ClassifyResult)
    (e : Nat × Node) :
    (StepBadChains g bd r e).found_container_edges = r.found_container_edges := by
  unfold StepBadChains
  split <;> rfl

/-- Where container registrations come from in one container step. -/
lemma stepContainerChains_containers (g : NodeDict) (cd : List (List String))
    (r : ClassifyResult) (e : Nat × Node) (p : Nat × String)
    (h : p ∈ (StepContainerChains g cd r e).containers) :
    p ∈ r.containers ∨
      (p.1 = e.1 ∧ ∃ chain ∈ cd, IsRetainedByEdges g e.2 chain = true) := by
  unfold StepContainerChains at h
  split at h
  · rename_i chain hfind
    simp only [List.mem_append, List.mem_singleton] at h
    rcases h with h | h
    · exact Or.inl h
    · exact Or.inr ⟨by rw [h], chain, List.mem_of_find?_eq_some hfind, List.find?_some hfind⟩
  · exact Or.inl h

/-- Where found-chain entries come from in one container step. -/
lemma stepContainerChains_found (g : NodeDict) (cd : List (List String))
    (r : ClassifyResult) (e : Nat × Node) (x : String)
    (h : x ∈ (StepContainerChains g cd r e).found_container_edges) :
    x ∈ r.found_container_edges ∨
      (∃ chain ∈ cd, IsRetainedByEdges g e.2 chain = true ∧ x = joinDot chain) := by
  unfold StepContainerChains at h
  split at h
  · rename_i chain hfind
    simp only [List.mem_append, List.mem_singleton] at h
    rcases h with h | h
    · exact Or.inl h
    · exact Or.inr ⟨chain, List.mem_of_find?_eq_some hfind, List.find?_some hfind, h⟩
  · exact Or.inl h

/-- Where container registrations come from in one classification
step: only non-Window entries matched by a container chain register. -/
lemma stepClassify_containers (g : NodeDict) (bd cd : List (List String)) (r : ClassifyResult)
    (e : Nat × Node) (p : Nat × String)
    (h : p ∈ (StepClassify g bd cd r e).containers) :
    p ∈ r.containers ∨
      (p.1 = e.1 ∧ isWindowName e.2.class_name = false ∧
        ∃ chain ∈ cd, IsRetainedByEdges g e.2 chain = true) := by
  unfold StepClassify at h
  split at h
  · exact Or.inl h
  · rename_i hwin
    rcases stepContainerChains_containers g cd _ e p h with h1 | ⟨hp, chain, hc, hm⟩
    · rw [stepBadChains_containers] at h1
      exact Or.inl h1
    · exact Or.inr ⟨hp, by simpa using hwin, chain, hc, hm⟩

/-- Where found-chain entries come from in one classification step. -/
lemma stepClassify_found (g : NodeDict) (bd cd : List (List String)) (r : ClassifyResult)
    (e : Nat × Node) (x : String)
    (h : x ∈ (StepClassify g bd cd r e).found_container_edges) :
    x ∈ r.found_container_edges ∨
      (isWindowName e.2.class_name = false ∧
        ∃ chain ∈ cd, IsRetainedByEdges g e.2 chain = true ∧ x = joinDot chain) := by
  unfold StepClassify at h
  split at h
  · exact Or.inl h
  · rename_i hwin
    rcases stepContainerChains_found g cd _ e x h with h1 | ⟨chain, hc, hm, hx⟩
    · rw [stepBadChains_found] at h1
      exact Or.inl h1
    · exact Or.inr ⟨by simpa using hwin, chain, hc, hm, hx⟩

/-- List version of `stepClassify_containers`. -/
lemma classifyList_containers (g : NodeDict) (bd cd : List (List String)) :
    ∀ (entries : List (Nat × Node)) (r : ClassifyResult) (p : Nat × String),
      p ∈ (ClassifyList g bd cd entries r).containers →
      p ∈ r.containers ∨
        ∃ n, (p.1, n) ∈ entries ∧ isWindowName n.class_name = false ∧
          ∃ chain ∈ cd, IsRetainedByEdges g n chain = true := by
  intro entries
  induction entries with
  | nil => intro r p h; exact Or.inl h
  | cons e rest ih =>
    intro r p h
    rw [ClassifyList] at h
    rcases ih _ p h with h' | ⟨n, hn, hw, hc⟩
    · rcases stepClassify_containers g bd cd r e p h' with h'' | ⟨hp, hw, hc⟩
      · exact Or.inl h''
      · exact Or.inr ⟨e.2, by rw [hp]; exact List.mem_cons_self _ _, hw, hc⟩
    · exact Or.inr ⟨n, List.mem_cons_of_mem _ hn, hw, hc⟩

/-- List version of `stepClassify_found`. -/
lemma classifyList_found (g : NodeDict) (bd cd : List (List String)) :
    ∀ (entries : List (Nat × Node)) (r : ClassifyResult) (x : String),
      x ∈ (ClassifyList g bd cd entries r).found_container_edges →
      x ∈ r.found_container_edges ∨
        ∃ p ∈ entries, isWindowName (Prod.snd p).class_name = false ∧
          ∃ chain ∈ cd, IsRetainedByEdges g (Prod.snd p) chain = true ∧ x = joinDot chain := by
  intro entries
  induction entries with
  | nil => intro r x h; exact Or.inl h
  | cons e rest ih =>
    intro r x h
    rw [ClassifyList] at h
    rcases ih _ x h with h' | ⟨p, hp, hw, hc⟩
    · rcases stepClassify_found g bd cd r e x h' with h'' | ⟨hw, hc⟩
      · exact Or.inl h''
      · exact Or.inr ⟨e, List.mem_cons_self _ _, hw, hc⟩
    · exact Or.inr ⟨p, List.mem_cons_of_mem _ hp, hw, hc⟩

/-- Claim C10: a Window-named node (class exactly `Window` or starting
with `Window / `) is added to the stop-node set and otherwise skipped
by the classification pass — it never enters the bad-stop set and is
never registered (or tagged) as a container, whatever chains it
matches; consequently a container chain matched only by Window-named
nodes is never found, and `FindLeaks` fails with the container-not-
found error. -/
theorem C10_window_nodes (g : NodeDict) (conts bads : List String) (pre suf : String)
    (hkn : (g.map Prod.fst).Nodup) :
    (∀ nid n, (nid, n) ∈ g → isWindowName n.class_name = true →
      nid ∈ (Classify g (bads.map splitDot) (conts.map splitDot)).stop_nodes ∧
      nid ∉ (Classify g (bads.map splitDot) (conts.map splitDot)).bad_stop_nodes ∧
      nid ∉ (Classify g (bads.map splitDot) (conts.map splitDot)).containers.map Prod.fst) ∧
    (∀ c ∈ conts,
      (∀ i m, (i, m) ∈ g → IsRetainedByEdges g m (splitDot c) = true →
        isWindowName m.class_name = true) →
      ∃ msg, FindLeaks g conts bads pre suf =
        Except.error ("Container not found: " ++ msg)) := by
  constructor
  · intro nid n hmem hw
    refine ⟨classifyList_window_stop g _ _ g _ nid n hmem hw, ?_, ?_⟩
    · intro hbad
      rcases classifyList_bad g _ _ g _ nid hbad with h' | ⟨n', hn', hw', _⟩
      · simp at h'
      · have heq := mem_nodup_unique g nid n n' hkn hmem hn'
        rw [← heq, hw] at hw'
        exact absurd hw' (by decide)
    · intro hcont
      obtain ⟨p, hp, hp1⟩ := List.mem_map.mp hcont
      rcases classifyList_containers g _ _ g _ p hp with h' | ⟨n', hn', hw', _⟩
      · simp at h'
      · rw [hp1] at hn'
        have heq := mem_nodup_unique g nid n n' hkn hmem hn'
        rw [← heq, hw] at hw'
        exact absurd hw' (by decide)
  · intro c hc hwin
    have hmiss : joinDot (splitDot c) ∉
        (Classify g (bads.map splitDot) (conts.map splitDot)).found_container_edges := by
      intro hfound
      rcases classifyList_found g _ _ g _ _ hfound with h' | ⟨p, hp, hw', chain, hch, hm, hx⟩
      · simp at h'
      · obtain ⟨c'', hc'', rfl⟩ := List.mem_map.mp hch
        have hcc : c = c'' := splitDot_inj c c'' hx
        subst hcc
        have := hwin p.1 p.2 hp hm
        rw [this] at hw'
        exact absurd hw' (by decide)
    obtain ⟨ch, hch, hmiss', herr⟩ :=
      checkContainers_error _ _ ⟨splitDot c, List.mem_map_of_mem splitDot hc, hmiss⟩
    refine ⟨joinDot ch, ?_⟩
    unfold FindLeaks
    dsimp only
    rw [herr]

/-- A `Window` node (id 7) retained through an edge named `x` from a
plain node (id 8). -/
def wNode : Node := ⟨7, "object", "Window", [⟨8, 7, some 8, some 7, "property", "x"⟩], [], ""⟩

/-- The two-node graph around `wNode`: the chain `x` is matched only
by the Window node. -/
def gWindow : NodeDict :=
  [(8, ⟨8, "object", "Plain", [], [⟨8, 7, some 8, some 7, "property", "x"⟩], ""⟩),
   (7, wNode)]

/-- Witness for C10 at a concrete input: in `gWindow` the Window node
is a stop node but neither bad nor a container, and the container
chain `x` (matched only by the Window node) makes `FindLeaks` fail. -/
theorem C10_witness :
    7 ∈ (Classify gWindow ([""].map splitDot) (["x"].map splitDot)).stop_nodes ∧
    7 ∉ (Classify gWindow ([""].map splitDot) (["x"].map splitDot)).bad_stop_nodes ∧
    7 ∉ (Classify gWindow ([""].map splitDot) (["x"].map splitDot)).containers.map Prod.fst ∧
    (∃ msg, FindLeaks gWindow ["x"] [""] "" "" =
      Except.error ("Container not found: " ++ msg)) := by
  have h := C10_window_nodes gWindow ["x"] [""] "" "" (by decide)
  have h1 := h.1 7 wNode (by decide) (by decide)
  have h2 := h.2 "x" (by decide) (by
    intro i m hm hr
    have hm' :
        (i, m) = (8, ⟨8, "object", "Plain", [], [⟨8, 7, some 8, some 7, "property", "x"⟩], ""⟩) ∨
          (i, m) = (7, wNode) := by simpa [gWindow] using hm
    rcases hm' with heq | heq
    · rw [Prod.mk.injEq] at heq
      rw [heq.2] at hr
      exact absurd hr (by decide)
    · rw [Prod.mk.injEq] at heq
      rw [heq.2]
      decide)
  exact ⟨h1.1, h1.2.1, h1.2.2, h2⟩

/-! ### The two parsing passes (claim C1, amended). -/

/-- Membership after an insert. -/
lemma mem_insertNode : ∀ (d : NodeDict) (k : Nat) (n : Node) (q : Nat × Node),
    q ∈ insertNode d k n → q = (k, n) ∨ q ∈ d := by
  intro d
  induction d with
  | nil =>
    intro k n q h
    rw [insertNode] at h
    exact Or.inl (List.mem_singleton.mp h)
  | cons p rest ih =>
    intro k n q h
    obtain ⟨p1, p2⟩ := p
    rw [insertNode] at h
    split at h
    · rcases List.mem_cons.mp h with h | h
      · exact Or.inl h
      · exact Or.inr (List.mem_cons_of_mem _ h)
    · rcases List.mem_cons.mp h with h | h
      · exact Or.inr (h ▸ List.mem_cons_self _ _)
      · rcases ih k n q h with h | h
        · exact Or.inl h
        · exact Or.inr (List.mem_cons_of_mem _ h)

/-- Keys after an insert. -/
lemma mem_keys_insertNode : ∀ (d : NodeDict) (k : Nat) (n : Node) (x : Nat),
    x ∈ (insertNode d k n).map Prod.fst ↔ x = k ∨ x ∈ d.map Prod.fst := by
  intro d
  induction d with
  | nil =>
    intro k n x
    simp [insertNode]
  | cons p rest ih =>
    intro k n x
    obtain ⟨p1, p2⟩ := p
    rw [insertNode]
    split
    · rename_i hk
      subst hk
      simp
    · rename_i hk
      simp only [List.map_cons, List.mem_cons, ih]
      constructor
      · rintro (h | h | h)
        · exact Or.inr (Or.inl h)
        · exact Or.inl h
        · exact Or.inr (Or.inr h)
      · rintro (h | h | h)
        · exact Or.inr (Or.inl h)
        · exact Or.inl h
        · exact Or.inr (Or.inr h)

/-- Inserting keeps keys duplicate-free. -/
lemma insertNode_keys_nodup : ∀ (d : NodeDict) (k : Nat) (n : Node),
    (d.map Prod.fst).Nodup → ((insertNode d k n).map Prod.fst).Nodup := by
  intro d
  induction d with
  | nil => intro k n _; simp [insertNode]
  | cons p rest ih =>
    intro k n h
    obtain ⟨p1, p2⟩ := p
    rw [List.map_cons, List.nodup_cons] at h
    rw [insertNode]
    split
    · rename_i hk
      subst hk
      rw [List.map_cons, List.nodup_cons]
      exact h
    · rename_i hk
      rw [List.map_cons, List.nodup_cons]
      constructor
      · intro hin
        rcases (mem_keys_insertNode rest k n p1).mp hin with h' | h'
        · exact hk h'
        · exact h.1 h'
      · exact ih k n h.2

/-- Looking up the inserted key. -/
lemma lookup_insertNode_self : ∀ (d : NodeDict) (k : Nat) (n : Node),
    lookupNode (insertNode d k n) k = some n := by
  intro d
  induction d with
  | nil => intro k n; simp [insertNode, lookupNode]
  | cons p rest ih =>
    intro k n
    obtain ⟨p1, p2⟩ := p
    rw [insertNode]
    split
    · rename_i hk
      rw [lookupNode, if_pos rfl]
    · rename_i hk
      rw [lookupNode, if_neg hk]
      exact ih k n

/-- Looking up another key after an insert. -/
lemma lookup_insertNode_ne : ∀ (d : NodeDict) (k : Nat) (n : Node) (key : Nat),
    key ≠ k → lookupNode (insertNode d k n) key = lookupNode d key := by
  intro d
  induction d with
  | nil =>
    intro k n key hne
    rw [insertNode, lookupNode, lookupNode]
    rw [if_neg (fun h => hne h.symm)]
    rfl
  | cons p rest ih =>
    intro k n key hne
    obtain ⟨p1, p2⟩ := p
    rw [insertNode]
    split
    · rename_i hk
      subst hk
      rw [lookupNode, lookupNode]
      rw [if_neg (fun h => hne h.symm), if_neg (fun h => hne h.symm)]
    · rw [lookupNode, lookupNode]
      by_cases hp : p1 = key
      · rw [if_pos hp, if_pos hp]
      · rw [if_neg hp, if_neg hp]
        exact ih k n key hne

/-- Inserting at a bound key leaves the key list unchanged. -/
lemma keys_insertNode_of_mem : ∀ (d : NodeDict) (k : Nat) (n m : Node),
    lookupNode d k = some m → (insertNode d k n).map Prod.fst = d.map Prod.fst := by
  intro d
  induction d with
  | nil => intro k n m h; simp [lookupNode] at h
  | cons p rest ih =>
    intro k n m h
    obtain ⟨p1, p2⟩ := p
    rw [lookupNode] at h
    rw [insertNode]
    split
    · rename_i hk
      subst hk
      simp
    · rename_i hk
      rw [if_neg hk] at h
      rw [List.map_cons, List.map_cons, ih k n m h]

/-- Lookup success implies membership. -/
lemma mem_of_lookup : ∀ (d : NodeDict) (k : Nat) (n : Node),
    lookupNode d k = some n → (k, n) ∈ d := by
  intro d
  induction d with
  | nil => intro k n h; simp [lookupNode] at h
  | cons p rest ih =>
    intro k n h
    obtain ⟨p1, p2⟩ := p
    rw [lookupNode] at h
    split at h
    · rename_i hk
      subst hk
      rw [Option.some.injEq] at h
      subst h
      exact List.mem_cons_self _ _
    · exact List.mem_cons_of_mem _ (ih k n h)

/-- `dictGet` succeeds exactly on bound keys. -/
lemma dictGet_ok (d : NodeDict) (k : Nat) (n : Node) (h : dictGet d k = Except.ok n) :
    lookupNode d k = some n := by
  unfold dictGet at h
  split at h
  · rename_i m hm
    rw [Except.ok.injEq] at h
    subst h
    exact hm
  · simp at h

/-- What the edge-linking loop does to the dictionary: keys are
unchanged; every bound node keeps its `edges_from` and gets a batch of
resolved edges appended to its `edges_to`, each coming from the linked
edge list and targeted at its key; and every linked edge ends up, in
resolved form, in the incoming list of the node bound to its target
id. -/
lemma linkEdges_spec : ∀ (es : List Edge) (d : NodeDict) (k : Nat) (d' : NodeDict),
    LinkEdges d k es = Except.ok d' →
    (d'.map Prod.fst = d.map Prod.fst) ∧
    (∀ key m, lookupNode d key = some m →
      ∃ ext, lookupNode d' key = some { m with edges_to := m.edges_to ++ ext } ∧
        ∀ x ∈ ext, ∃ e ∈ es, x = ResolveEdge k e ∧ e.to_node_id = key) ∧
    (∀ e ∈ es, ∃ t, lookupNode d' e.to_node_id = some t ∧ ResolveEdge k e ∈ t.edges_to) := by
  intro es
  induction es with
  | nil =>
    intro d k d' h
    rw [LinkEdges, Except.ok.injEq] at h
    subst h
    refine ⟨rfl, ?_, ?_⟩
    · intro key m hm
      refine ⟨[], ?_, ?_⟩
      · rw [List.append_nil]
        exact hm
      · intro x hx
        simp at hx
    · intro e he
      simp at he
  | cons e rest ih =>
    intro d k d' h
    rw [LinkEdges] at h
    split at h
    · simp at h
    · rename_i t hget
      have ht : lookupNode d e.to_node_id = some t := dictGet_ok d e.to_node_id t hget
      set d1 := insertNode d e.to_node_id
        { t with edges_to := t.edges_to ++ [ResolveEdge k e] } with hd1
      obtain ⟨hkeys, hsome, hall⟩ := ih d1 k d' h
      have hkeys1 : d1.map Prod.fst = d.map Prod.fst :=
        keys_insertNode_of_mem d e.to_node_id _ t ht
      refine ⟨by rw [hkeys, hkeys1], ?_, ?_⟩
      · intro key m hm
        by_cases hkey : key = e.to_node_id
        · rw [hkey] at hm ⊢
          rw [ht, Option.some.injEq] at hm
          subst hm
          have h1 : lookupNode d1 e.to_node_id =
              some { t with edges_to := t.edges_to ++ [ResolveEdge k e] } :=
            lookup_insertNode_self d e.to_node_id _
          obtain ⟨ext, hlk, hext⟩ := hsome e.to_node_id _ h1
          refine ⟨[ResolveEdge k e] ++ ext, ?_, ?_⟩
          · rw [← List.append_assoc]
            exact hlk
          · intro x hx
            rcases List.mem_append.mp hx with hx | hx
            · rw [List.mem_singleton] at hx
              exact ⟨e, List.mem_cons_self _ _, hx, rfl⟩
            · obtain ⟨e', he', hx', ht'⟩ := hext x hx
              exact ⟨e', List.mem_cons_of_mem _ he', hx', ht'⟩
        · have h1 : lookupNode d1 key = some m := by
            rw [hd1, lookup_insertNode_ne d _ _ key hkey]
            exact hm
          obtain ⟨ext, hlk, hext⟩ := hsome key m h1
          refine ⟨ext, hlk, ?_⟩
          intro x hx
          obtain ⟨e', he', hx', ht'⟩ := hext x hx
          exact ⟨e', List.mem_cons_of_mem _ he', hx', ht'⟩
      · intro e' he'
        rcases List.mem_cons.mp he' with rfl | he'
        · have h1 : lookupNode d1 e'.to_node_id =
              some { t with edges_to := t.edges_to ++ [ResolveEdge k e'] } :=
            lookup_insertNode_self d e'.to_node_id _
          obtain ⟨ext, hlk, _⟩ := hsome e'.to_node_id _ h1
          refine ⟨_, hlk, ?_⟩
          simp
        · exact hall e' he'

/-- Lookup fails exactly on keys outside the key list. -/
lemma lookup_none_iff : ∀ (d : NodeDict) (k : Nat),
    lookupNode d k = none ↔ k ∉ d.map Prod.fst := by
  intro d
  induction d with
  | nil => intro k; simp [lookupNode]
  | cons p rest ih =>
    intro k
    obtain ⟨p1, p2⟩ := p
    rw [lookupNode]
    by_cases h : p1 = k
    · subst h
      simp
    · rw [if_neg h]
      constructor
      · intro hn hmem
        rcases List.mem_cons.mp hmem with he | hmem'
        · exact h he.symm
        · exact (ih k).mp hn hmem'
      · intro hnm
        apply (ih k).mpr
        intro hmem'
        exact hnm (List.mem_cons_of_mem _ hmem')

/-- The running invariant of the second pass: keys stay unique; every
incoming edge already attached is resolved and targeted at its owner;
every outgoing edge names its owner as source and is either still
unresolved — in which case its owner is still pending — or resolved
and already attached to its target's incoming list. -/
def MixedInv (pend : List Nat) (d : NodeDict) : Prop :=
  (d.map Prod.fst).Nodup ∧
  ∀ p ∈ d,
    (∀ e ∈ p.2.edges_to, e.to_node_id = p.1 ∧ e.from_node = some e.from_node_id ∧
      e.to_node = some p.1) ∧
    (∀ e ∈ p.2.edges_from, e.from_node_id = p.1 ∧
      ((e.from_node = none ∧ e.to_node = none ∧ p.1 ∈ pend) ∨
       (e.from_node = some p.1 ∧ e.to_node = some e.to_node_id ∧
         ∃ t, lookupNode d e.to_node_id = some t ∧ e ∈ t.edges_to)))

/-- Processing one pending node preserves the invariant and discharges
that node from the pending list. -/
lemma secondPassNode_inv (d : NodeDict) (k : Nat) (rest : List Nat) (d' : NodeDict)
    (hinv : MixedInv (k :: rest) d) (h : SecondPassNode d k = Except.ok d') :
    MixedInv rest d' := by
  obtain ⟨hnd, hent⟩ := hinv
  unfold SecondPassNode at h
  split at h
  · simp at h
  · rename_i n hget
    have hn : lookupNode d k = some n := dictGet_ok d k n hget
    split at h
    · simp at h
    · rename_i d1 hlink
      obtain ⟨hkeys1, hsome1, hall1⟩ := linkEdges_spec n.edges_from d k d1 hlink
      split at h
      · simp at h
      · rename_i n1 hget1
        have hn1 : lookupNode d1 k = some n1 := dictGet_ok d1 k n1 hget1
        obtain ⟨extk, hlkk, hextk⟩ := hsome1 k n hn
        rw [hlkk, Option.some.injEq] at hn1
        rw [Except.ok.injEq] at h
        have hnd1 : (d1.map Prod.fst).Nodup := by rw [hkeys1]; exact hnd
        have hkeys' : d'.map Prod.fst = d1.map Prod.fst := by
          rw [← h]
          exact keys_insertNode_of_mem d1 k _ _ (hlkk)
        have hnd' : (d'.map Prod.fst).Nodup := by rw [hkeys', hkeys1]; exact hnd
        have hentk := hent (k, n) (mem_of_lookup d k n hn)
        have hfromk : ∀ e ∈ n.edges_from, e.from_node_id = k := fun e he => (hentk.2 e he).1
        -- the shape of the replaced source node
        have hn1from : n1.edges_from = n.edges_from := by rw [← hn1]
        have hn1to : n1.edges_to = n.edges_to ++ extk := by rw [← hn1]
        -- d1 lookups come from d lookups
        have hinv1 : ∀ (key : Nat) (m1 : Node), lookupNode d1 key = some m1 →
            ∃ m ext, lookupNode d key = some m ∧
              m1 = { m with edges_to := m.edges_to ++ ext } ∧
              ∀ x ∈ ext, ∃ e ∈ n.edges_from, x = ResolveEdge k e ∧ e.to_node_id = key := by
          intro key m1 hm1
          cases hdkey : lookupNode d key with
          | none =>
            rw [lookup_none_iff] at hdkey
            rw [← hkeys1, ← lookup_none_iff] at hdkey
            rw [hm1] at hdkey
            simp at hdkey
          | some m =>
            obtain ⟨ext, hlk, hext⟩ := hsome1 key m hdkey
            rw [hm1, Option.some.injEq] at hlk
            exact ⟨m, ext, rfl, hlk, hext⟩
        -- the invariant for the rewritten source entry
        have hnewTo : ∀ e ∈ n.edges_to ++ extk, e.to_node_id = k ∧
            e.from_node = some e.from_node_id ∧ e.to_node = some k := by
          intro e he
          rcases List.mem_append.mp he with he | he
          · exact hentk.1 e he
          · obtain ⟨e0, he0, rfl, ht0⟩ := hextk e he
            have hf := hfromk e0 he0
            refine ⟨ht0, ?_, ?_⟩
            · unfold ResolveEdge
              rw [hf]
            · unfold ResolveEdge
              rw [ht0]
        subst h
        constructor
        · rw [hkeys', hkeys1]
          exact hnd
        · intro q hq
          have hlq : lookupNode (insertNode d1 k { n1 with
              edges_from := n1.edges_from.map (ResolveEdge k) }) q.1 = some q.2 :=
            lookup_of_mem_nodup _ q.1 q.2 hnd' hq
          by_cases hqk : q.1 = k
          · -- the processed node itself
            rw [hqk, lookup_insertNode_self, Option.some.injEq] at hlq
            constructor
            · intro e he
              rw [← hlq] at he
              have he' : e ∈ n.edges_to ++ extk := by
                rw [← hn1to]
                exact he
              rw [hqk]
              exact hnewTo e he'
            · intro e he
              rw [← hlq] at he
              simp only [List.mem_map] at he
              obtain ⟨e0, he0, rfl⟩ := he
              rw [hn1from] at he0
              have hf := hfromk e0 he0
              rw [hqk]
              refine ⟨by rw [ResolveEdge, hf], Or.inr ⟨by rw [ResolveEdge, hf], rfl, ?_⟩⟩
              obtain ⟨t, hlt, hmt⟩ := hall1 e0 he0
              by_cases htk : e0.to_node_id = k
              · refine ⟨{ n1 with edges_from := n1.edges_from.map (ResolveEdge k) }, ?_, ?_⟩
                · show lookupNode _ (ResolveEdge k e0).to_node_id = _
                  have : (ResolveEdge k e0).to_node_id = k := htk
                  rw [this, lookup_insertNode_self]
                · show ResolveEdge k e0 ∈ n1.edges_to
                  rw [htk] at hlt
                  rw [hlkk, Option.some.injEq] at hlt
                  rw [← hlt] at hmt
                  rw [← hn1]
                  exact hmt
              · refine ⟨t, ?_, hmt⟩
                show lookupNode _ (ResolveEdge k e0).to_node_id = some t
                have hre : (ResolveEdge k e0).to_node_id = e0.to_node_id := rfl
                rw [hre, lookup_insertNode_ne d1 k _ e0.to_node_id htk]
                exact hlt
          · -- an untouched entry
            rw [lookup_insertNode_ne d1 k _ q.1 hqk] at hlq
            obtain ⟨m, ext, hdm, hshape, hext⟩ := hinv1 q.1 q.2 hlq
            have hentm := hent (q.1, m) (mem_of_lookup d q.1 m hdm)
            constructor
            · intro e he
              rw [hshape] at he
              rcases List.mem_append.mp he with he | he
              · exact hentm.1 e he
              · obtain ⟨e0, he0, rfl, ht0⟩ := hext e he
                have hf := hfromk e0 he0
                refine ⟨ht0, ?_, ?_⟩
                · rw [ResolveEdge, hf]
                · rw [ResolveEdge, ht0]
            · intro e he
              have hefrom : e ∈ m.edges_from := by
                rw [hshape] at he
                exact he
              have hme := hentm.2 e hefrom
              refine ⟨hme.1, ?_⟩
              rcases hme.2 with ⟨h1, h2, h3⟩ | ⟨h1, h2, t, hlt, hmt⟩
              · refine Or.inl ⟨h1, h2, ?_⟩
                rcases List.mem_cons.mp h3 with he3 | h3
                · exact absurd he3 hqk
                · exact h3
              · refine Or.inr ⟨h1, h2, ?_⟩
                obtain ⟨ext2, hlt2, _⟩ := hsome1 e.to_node_id t hlt
                by_cases htk : e.to_node_id = k
                · refine ⟨{ n1 with edges_from := n1.edges_from.map (ResolveEdge k) }, ?_, ?_⟩
                  · rw [htk, lookup_insertNode_self]
                  · show e ∈ n1.edges_to
                    rw [htk] at hlt
                    rw [hn, Option.some.injEq] at hlt
                    rw [← hlt] at hmt
                    rw [hn1to]
                    exact List.mem_append_left _ hmt
                · refine ⟨{ t with edges_to := t.edges_to ++ ext2 }, ?_, ?_⟩
                  · rw [lookup_insertNode_ne d1 k _ e.to_node_id htk]
                    exact hlt2
                  · exact List.mem_append_left _ hmt

/-- Running the second pass over the whole pending list empties it
while preserving the invariant. -/
lemma secondPassGo_inv : ∀ (pend : List Nat) (d d' : NodeDict),
    MixedInv pend d → SecondPassGo d pend = Except.ok d' → MixedInv [] d' := by
  intro pend
  induction pend with
  | nil =>
    intro d d' hinv h
    rw [SecondPassGo, Except.ok.injEq] at h
    subst h
    exact hinv
  | cons k rest ih =>
    intro d d' hinv h
    rw [SecondPassGo] at h
    split at h
    · simp at h
    · rename_i d1 hstep
      exact ih d1 d' (secondPassNode_inv d k rest d1 hinv hstep) h

/-- The invariant the first pass establishes: unique keys, empty
incoming lists, and outgoing lists of unresolved edges whose source id
is the owner's key. -/
def FirstPassInv (d : NodeDict) : Prop :=
  (d.map Prod.fst).Nodup ∧
  ∀ p ∈ d, p.2.edges_to = [] ∧
    ∀ e ∈ p.2.edges_from, e.from_node_id = p.1 ∧ e.from_node = none ∧ e.to_node = none

/-- Every kept edge `_ReadEdgeFromIndex` returns starts at the node
being read and has both endpoint references still unset. -/
lemma readEdge_shape (s : Snapshotter) (nid ix : Nat) (e : Edge)
    (h : ReadEdgeFromIndex s nid ix = Except.ok (some e)) :
    e.from_node_id = nid ∧ e.from_node = none ∧ e.to_node = none := by
  unfold ReadEdgeFromIndex at h
  repeat' split at h
  all_goals
    first
    | (rw [Except.ok.injEq, Option.some.injEq] at h
       subst h
       exact ⟨rfl, rfl, rfl⟩)
    | simp at h

/-- All edges collected over a node's slice share that shape. -/
lemma readEdgesAt_shape (s : Snapshotter) (nid : Nat) : ∀ (ixs : List Nat) (es : List Edge),
    ReadEdgesAt s nid ixs = Except.ok es →
    ∀ e ∈ es, e.from_node_id = nid ∧ e.from_node = none ∧ e.to_node = none := by
  intro ixs
  induction ixs with
  | nil =>
    intro es h e he
    rw [ReadEdgesAt, Except.ok.injEq] at h
    subst h
    simp at he
  | cons ix rest ih =>
    intro es h e he
    rw [ReadEdgesAt] at h
    split at h
    · simp at h
    · rename_i oe hoe
      split at h
      · simp at h
      · rename_i es' hes'
        split at h
        · rename_i e0
          rw [Except.ok.injEq] at h
          subst h
          rcases List.mem_cons.mp he with rfl | he'
          · exact readEdge_shape s nid ix e hoe
          · exact ih es' hes' e he'
        · rw [Except.ok.injEq] at h
          subst h
          exact ih es' hes' e he

/-- Inserting a freshly read node preserves the first-pass invariant. -/
lemma firstPassInv_insert (d : NodeDict) (nid : Nat) (tyStr ctor nodeStr : String)
    (kept : List Edge) (hinv : FirstPassInv d)
    (hkept : ∀ e ∈ kept, e.from_node_id = nid ∧ e.from_node = none ∧ e.to_node = none) :
    FirstPassInv (insertNode d nid ⟨nid, tyStr, ctor, [], kept, nodeStr⟩) := by
  obtain ⟨hnd, hent⟩ := hinv
  refine ⟨insertNode_keys_nodup d nid _ hnd, ?_⟩
  intro p hp
  rcases mem_insertNode d nid _ p hp with rfl | hp'
  · exact ⟨rfl, hkept⟩
  · exact hent p hp'

/-- `_ReadNodeFromIndex` preserves the first-pass invariant: it either
leaves the dictionary alone (uninteresting node kind) or inserts a node
with an empty incoming list whose outgoing list holds the kept edges of
its slice, unresolved and starting at the node itself. -/
lemma readNode_inv (s : Snapshotter) (d : NodeDict) (ix cur : Nat) (d' : NodeDict) (ee : Nat)
    (hinv : FirstPassInv d) (h : ReadNodeFromIndex s d ix cur = Except.ok (d', ee)) :
    FirstPassInv d' := by
  unfold ReadNodeFromIndex at h
  repeat' split at h
  all_goals
    first
    | (rw [Except.ok.injEq, Prod.mk.injEq] at h
       obtain ⟨h1, h2⟩ := h
       subst h1
       first
       | exact hinv
       | exact firstPassInv_insert _ _ _ _ _ _ hinv (readEdgesAt_shape _ _ _ _ (by assumption)))
    | simp at h

/-- The first-pass node loop preserves the invariant. -/
lemma readAllNodes_inv (s : Snapshotter) : ∀ (ixs : List Nat) (d : NodeDict) (cur : Nat)
    (out : NodeDict × Nat), FirstPassInv d → ReadAllNodes s ixs d cur = Except.ok out →
    FirstPassInv out.1 := by
  intro ixs
  induction ixs with
  | nil =>
    intro d cur out hinv h
    rw [ReadAllNodes, Except.ok.injEq] at h
    subst h
    exact hinv
  | cons ix rest ih =>
    intro d cur out hinv h
    rw [ReadAllNodes] at h
    split at h
    · simp at h
    · rename_i d1 cur1 hstep
      exact ih d1 cur1 out (readNode_inv s d ix cur d1 cur1 hinv hstep) h

/-- Claim C1, amended: during snapshot parsing every kept edge read
from a node record's edge slice is attached to the originating node's
*outgoing*-edge list (`edges_from` — the node is the edge's source),
with incoming-edge bookkeeping deferred: after the first pass every
node's incoming list is empty and its outgoing edges name it as source
with both endpoint references unset.  The second pass then populates
both endpoint node references and appends each edge to its *target*
node's incoming-edge list (`edges_to` — the target is the edge's
end point). -/
theorem C1_parse_edge_attachment (s : Snapshotter) (dFP : NodeDict) (cursor : Nat)
    (dF : NodeDict)
    (h1 : ReadAllNodes s (NodeIndices s) [] 0 = Except.ok (dFP, cursor))
    (h2 : SecondPass dFP = Except.ok dF) :
    (∀ p ∈ dFP, p.2.edges_to = [] ∧
      ∀ e ∈ p.2.edges_from, e.from_node_id = p.1 ∧ e.from_node = none ∧ e.to_node = none) ∧
    (∀ p ∈ dF,
      (∀ e ∈ p.2.edges_from, e.from_node_id = p.1 ∧ e.from_node = some p.1 ∧
        e.to_node = some e.to_node_id ∧
        ∃ t, lookupNode dF e.to_node_id = some t ∧ e ∈ t.edges_to) ∧
      (∀ e ∈ p.2.edges_to, e.to_node_id = p.1 ∧ e.from_node = some e.from_node_id ∧
        e.to_node = some p.1)) := by
  have hFP : FirstPassInv dFP :=
    readAllNodes_inv s (NodeIndices s) [] 0 (dFP, cursor) ⟨by simp, by simp⟩ h1
  have hmix0 : MixedInv (dFP.map Prod.fst) dFP := by
    refine ⟨hFP.1, ?_⟩
    intro p hp
    have hpent := hFP.2 p hp
    constructor
    · intro e he
      rw [hpent.1] at he
      simp at he
    · intro e he
      have hsh := hpent.2 e he
      exact ⟨hsh.1, Or.inl ⟨hsh.2.1, hsh.2.2, List.mem_map.mpr ⟨p, hp, rfl⟩⟩⟩
  have hgo : SecondPassGo dFP (dFP.map Prod.fst) = Except.ok dF := by
    rwa [SecondPass] at h2
  have hfin : MixedInv [] dF := secondPassGo_inv (dFP.map Prod.fst) dFP dF hmix0 hgo
  refine ⟨fun p hp => hFP.2 p hp, ?_⟩
  intro p hp
  have hpent := hfin.2 p hp
  refine ⟨?_, hpent.1⟩
  intro e he
  have hsh := hpent.2 e he
  rcases hsh.2 with ⟨_, _, hmem⟩ | ⟨ha, hb, hc⟩
  · simp at hmem
  · exact ⟨hsh.1, ha, hb, hc⟩

/-- Witness for the amended C1 at the concrete two-node snapshot: the
first pass on `heapIdx` keeps the edge only in `Foo`'s outgoing list
unresolved, and the second pass resolves it and files it into `Bar`'s
incoming list. -/
theorem C1_parse_edge_attachment_witness :
    (∀ p ∈ firstPassTwoNode, p.2.edges_to = [] ∧
      ∀ e ∈ p.2.edges_from, e.from_node_id = p.1 ∧ e.from_node = none ∧ e.to_node = none) ∧
    (∀ p ∈ parsedTwoNode,
      (∀ e ∈ p.2.edges_from, e.from_node_id = p.1 ∧ e.from_node = some p.1 ∧
        e.to_node = some e.to_node_id ∧
        ∃ t, lookupNode parsedTwoNode e.to_node_id = some t ∧ e ∈ t.edges_to) ∧
      (∀ e ∈ p.2.edges_to, e.to_node_id = p.1 ∧ e.from_node = some e.from_node_id ∧
        e.to_node = some p.1)) :=
  C1_parse_edge_attachment sIdx firstPassTwoNode 3 parsedTwoNode rfl rfl
